import Mathlib

/-!
A shallow embedding of the omegaUp-deploy test orchestration scripts
(`problems.py` and `runtests.py`) together with proofs about their
behaviour.

Modelling conventions:

* Python strings are Lean `String`s; `os.path.join`, `os.path.basename`
  and `os.path.splitext` are modelled on character lists, following the
  posixpath implementations (arguments in this code base never carry the
  Windows-specific corner cases).
* `decimal.Decimal` values are modelled as exact rationals `ℚ`.  Every
  value the script manipulates is a finite decimal, and the operations
  used on it (`round(_, 15)`, multiplication by `100`, comparison with
  the integer truncation) are exact on `ℚ`, with `round` implemented as
  round-half-even, the rounding mode of the default decimal context.
* Fallible Python code (uncaught exceptions such as `json.JSONDecodeError`
  or `TypeError`) is modelled with `Except String`.
* The filesystem seen by `runtests.py` when it scans a logs directory is
  passed in as a function from a directory path to an optional listing;
  `none` models `os.path.isdir` returning `False`.  The listing stands
  for the `sorted(os.listdir(...))` sequence together with the content
  `open(...).read()` yields for each name.
* Messages built with Python f-strings are modelled structurally: an
  inductive type records the constructor and the data interpolated into
  the string, rather than the rendered text (rendering a `Decimal` is a
  presentation detail none of the verified properties depend on).
  `textwrap.indent(text, '    ')` is modelled faithfully on the content,
  splitting on newline characters.
-/

namespace OmegaUp

/-- Characters of a string (`String.toList`), used by the path helpers. -/
def chars (s : String) : List Char := s.toList

/-- Model of `os.path.join(a, b)` for POSIX paths: an absolute second
component replaces the first, otherwise the components are glued with a
single separator. -/
def pyJoin (a b : String) : String :=
  if List.isPrefixOf ['/'] (chars b) then b
  else if a = "" then b
  else if List.isSuffixOf ['/'] (chars a) then a ++ b
  else a ++ "/" ++ b

/-- Model of `os.path.basename`: the part of the path after the last
separator. -/
def pyBasename (p : String) : String :=
  ⟨((chars p).reverse.takeWhile fun c => c ≠ '/').reverse⟩

/-- Index of the last `'.'` of a character list, if any. -/
def lastDotIdx (l : List Char) : Option Nat :=
  match l.reverse.findIdx? fun c => c = '.' with
  | none => none
  | some j => some (l.length - 1 - j)

/-- Model of `os.path.splitext(s)[0]` for names without a separator: the
name up to its last dot, except that a dot with only dots before it (a
leading-dot name such as `".err"`) does not start an extension. -/
def splitextStem (s : String) : String :=
  match lastDotIdx (chars s) with
  | none => s
  | some i =>
      if (chars s).take i |>.any (fun c => c ≠ '.') then ⟨(chars s).take i⟩
      else s

/-- Model of `str.endswith`. -/
def strEndsWith (s suf : String) : Bool :=
  List.isSuffixOf (chars suf) (chars s)

/-- Model of the Python substring test `needle in hay`. -/
def strContainsSub (hay needle : String) : Bool :=
  (chars hay).tails.any fun t => List.isPrefixOf (chars needle) t

/-- Split a character list into lines, each keeping its trailing newline
(the `str.splitlines(keepends=True)` behaviour restricted to `'\n'`
terminators, which is the only terminator the artifact plumbing
produces). -/
def splitLinesKeepEnds : List Char → List (List Char)
  | [] => []
  | c :: rest =>
      if c = '\n' then [c] :: splitLinesKeepEnds rest
      else
        match splitLinesKeepEnds rest with
        | [] => [[c]]
        | l :: ls => (c :: l) :: ls

/-- A line that `str.strip()` would reduce to the empty string; such
lines are not prefixed by `textwrap.indent`. -/
def lineIsBlank (l : List Char) : Bool :=
  l.all fun c => c.isWhitespace

/-- Model of `textwrap.indent(text, '    ')`: prefix every line holding a
non-whitespace character with four spaces. -/
def pyIndent (text : String) : String :=
  ⟨(splitLinesKeepEnds (chars text)).flatMap fun l =>
    if lineIsBlank l then l else (' ' :: ' ' :: ' ' :: ' ' :: l)⟩

/-! ### The decimal model

`runtests.py` computes `scaledScore = round(normalizedScore, 15) * 100`
and compares it with `int(scaledScore)`.  `round` on a `Decimal` rounds
half to even; `int` truncates toward zero. -/

/-- Round a rational to the nearest integer, ties to even. -/
def roundHalfEven (q : ℚ) : ℤ :=
  let f := ⌊q⌋
  let r := q - (f : ℚ)
  if r < 1/2 then f
  else if 1/2 < r then f + 1
  else if f % 2 = 0 then f else f + 1

/-- Model of Python `round(d, n)` on a `Decimal`: quantize to `n` decimal
places, rounding half to even. -/
def roundDec (q : ℚ) (n : ℕ) : ℚ :=
  (roundHalfEven (q * (10 : ℚ) ^ n) : ℚ) / (10 : ℚ) ^ n

/-- Model of Python `int(d)` on a `Decimal`: truncation toward zero. -/
def ratTrunc (q : ℚ) : ℤ :=
  if 0 ≤ q then ⌊q⌋ else ⌈q⌉

/-- The `scaledScore` of `runtests.py`: `round(score, 15) * 100`. -/
def scaledScoreOf (s : ℚ) : ℚ := roundDec s 15 * 100

/-! ### `problems.py`: the problem selector -/

/-- A problem, as `problems.Problem` (a named tuple `path`, `title`). -/
structure Problem where
  path : String
  title : String
deriving DecidableEq, Repr

/-- One raw entry of `problems.json`; `disabled` models
`problem.get('disabled', False)`. -/
structure CatalogEntry where
  path : String
  title : String
  disabled : Bool
deriving DecidableEq, Repr

/-- The collaborators `problems.problems` consults: the parsed catalog
(`none` when opening or parsing `problems.json` fails, which raises) and
the raw text of `git diff --name-only --diff-filter=AMDR <range>`. -/
structure SelectEnv where
  catalog : Option (List CatalogEntry)
  changes : String

/-- The `configProblems` list built by `problems.problems`: catalog
entries that are not disabled, in catalog order. -/
def configProblemsOf (cfg : List CatalogEntry) : List Problem :=
  (cfg.filter fun e => !e.disabled).map fun e => ⟨e.path, e.title⟩

/-- Model of `problems.problems(allProblems, problemPaths, root)`.  The
catalog file is opened and parsed first; only then are the explicit
paths, the `allProblems` flag, and finally the ChangeSet substring
filter consulted, exactly as in the source. -/
def selectProblems (allProblems : Bool) (problemPaths : List String)
    (env : SelectEnv) : Except String (List Problem) :=
  match env.catalog with
  | none => .error "problems.json could not be read"
  | some cfg =>
      let configProblems := configProblemsOf cfg
      if problemPaths ≠ [] then
        .ok (problemPaths.map fun problemPath =>
          ⟨problemPath, pyBasename problemPath⟩)
      else if allProblems then
        .ok configProblems
      else
        .ok (configProblems.filter fun p => strContainsSub env.changes p.path)

/-! ### `problems.py`: CI annotation escaping -/

/-- Model of `str.replace(pat, rep)` for a single-character pattern:
every occurrence of `pat` is replaced by `rep`. -/
def pyReplaceChar (s : List Char) (pat : Char) (rep : List Char) : List Char :=
  match s with
  | [] => []
  | c :: rest => (if c = pat then rep else [c]) ++ pyReplaceChar rest pat rep

/-- The chain of the three `replace` calls of `problems.ci_error`, in
source order: `%` first, then carriage return, then line feed. -/
def escListChain (l : List Char) : List Char :=
  pyReplaceChar
    (pyReplaceChar
      (pyReplaceChar l '%' ('%' :: '2' :: '5' :: []))
      '\r' ('%' :: '0' :: 'D' :: []))
    '\n' ('%' :: '0' :: 'A' :: [])

/-- The escaping `problems.ci_error` applies to its message. -/
def ciEscape (message : String) : String :=
  ⟨escListChain (chars message)⟩

/-- Per-character description of the composite escaping. -/
def escChar (c : Char) : List Char :=
  if c = '%' then '%' :: '2' :: '5' :: []
  else if c = '\r' then '%' :: '0' :: 'D' :: []
  else if c = '\n' then '%' :: '0' :: 'A' :: []
  else [c]

/-- The inverse substitution: scan left to right, turning the escape
codes `%25`, `%0D`, `%0A` back into the characters they stand for. -/
def ciUnescapeL : List Char → List Char
  | [] => []
  | c :: rest =>
      if c = '%' ∧ rest.take 2 = ['2', '5'] then '%' :: ciUnescapeL (rest.drop 2)
      else if c = '%' ∧ rest.take 2 = ['0', 'D'] then '\r' :: ciUnescapeL (rest.drop 2)
      else if c = '%' ∧ rest.take 2 = ['0', 'A'] then '\n' :: ciUnescapeL (rest.drop 2)
      else c :: ciUnescapeL rest
termination_by l => l.length
decreasing_by
  all_goals simp [List.length_drop]
  all_goals omega

/-- String-level inverse of `ciEscape`. -/
def ciUnescape (s : String) : String :=
  ⟨ciUnescapeL (chars s)⟩

/-! ### `runtests.py`: report data model -/

/-- One case of a group in a test result (`{name, verdict}`). -/
structure CaseRes where
  name : String
  verdict : String
deriving DecidableEq, Repr

/-- One group of a test result. -/
structure GroupRes where
  cases : List CaseRes
deriving DecidableEq, Repr

/-- The `result` object of a test entry.  `verdict` and `score` model
`result.get('verdict')` / `result.get('score')`: either may be absent. -/
structure RunResult where
  verdict : Option String
  score : Option ℚ
  groups : List GroupRes
deriving DecidableEq, Repr

/-- One entry of `report['tests']`.  `ty` models the `'type'` key
(`"solutions"` or `"validator"`); `solution` is the raw solution dict
(string keys and values, including `'filename'`); `result` models
`testResult.get('result', {})` being absent. -/
structure TestResult where
  ty : String
  filename : String
  index : ℕ
  state : String
  solution : List (String × String)
  result : Option RunResult
deriving DecidableEq, Repr

/-- A parsed sandbox report.  `tests` is `none` when the JSON object has
no `tests` key, mirroring `report.get('tests', [])`. -/
structure Report where
  state : String
  tests : Option (List TestResult)
deriving DecidableEq, Repr

/-- Everything one iteration of the main loop observes about a problem:
the problem itself, the sandbox invocation's exit code and stderr, the
JSON parse of its stdout (`none` models malformed JSON, which raises
`json.JSONDecodeError`), and the logs filesystem (directory path to
sorted listing with file contents; `none` models a missing directory). -/
structure ProblemRun where
  prob : Problem
  returncode : ℤ
  stderr : String
  parsed : Option Report
  logsListing : String → Option (List (String × String))

/-- A Python value as it can appear in the `got` dictionary built by the
validator: `None`, a string, a score (decimal) or an int. -/
inductive PyVal where
  | vnone
  | vstr (s : String)
  | vdec (q : ℚ)
  | vint (n : ℤ)
deriving DecidableEq, Repr

/-- Wrap an optional string the way `dict.get` surfaces it. -/
def strValOf : Option String → PyVal
  | none => .vnone
  | some s => .vstr s

/-- Wrap an optional decimal the way `dict.get` surfaces it. -/
def decValOf : Option ℚ → PyVal
  | none => .vnone
  | some q => .vdec q

/-- The `got` dictionary of `runtests._main`: it always carries both the
`'verdict'` and `'score'` keys, each possibly bound to `None`. -/
def gotDict (tr : TestResult) : List (String × PyVal) :=
  [("verdict", strValOf (tr.result.bind RunResult.verdict)),
   ("score", decValOf (tr.result.bind RunResult.score))]

/-- Model of `d.get(key, dflt)` on an insertion-ordered dict. -/
def pyDictGet (d : List (String × PyVal)) (key : String) (dflt : PyVal) : PyVal :=
  match d with
  | [] => dflt
  | (k, v) :: rest => if k = key then v else pyDictGet rest key dflt

/-- Model of the `decimal.Decimal` constructor on the values that can
reach it here: `Decimal(None)` raises `TypeError`; a decimal or an int
converts exactly.  (No string ever reaches this call in the source: the
`'score'` slot only ever holds `None` or a number.) -/
def pyDecimal : PyVal → Except String ℚ
  | .vnone => .error "TypeError: conversion from NoneType to Decimal"
  | .vdec q => .ok q
  | .vint n => .ok (n : ℚ)
  | .vstr _ => .error "unmodelled: Decimal applied to a string"

/-- The value `decimal.Decimal(got.get('score', 0))` of the validator. -/
def scoreOfTest (tr : TestResult) : Except String ℚ :=
  pyDecimal (pyDictGet (gotDict tr) "score" (.vint 0))

/-! ### `runtests.py`: per-test validation -/

/-- A failure message, modelled structurally: either the
`"Score isn't an integer! Got: ..."` text carrying the scaled score, or
an artifact message carrying the `.err` file name and the indented file
content that the source concatenates as `f"{name}:\n{indented}"`. -/
inductive FailureMsg where
  | scoreNotInteger (scaled : ℚ)
  | artifactLog (stderrFilename : String) (indentedContent : String)
deriving DecidableEq, Repr

/-- A message passed to `problems.error`, modelled structurally. -/
inductive ErrMsg where
  | failedToRun (title stderr : String)
  | skippedProblem (title : String)
deriving DecidableEq, Repr

/-- An observable diagnostic of the main loop: a `problems.error` call
with its `filename` attribution, the `logging.warning` for a missing
logs directory, or a `problems.ci_error` emission with the messages of
one associated file. -/
inductive Event where
  | errorEvt (msg : ErrMsg) (filename : String)
  | warnLogsDirMissing (dir : String)
  | ciEmit (filename : String) (msgs : List FailureMsg)
deriving DecidableEq, Repr

/-- Append a message under a key of an insertion-ordered
`defaultdict(list)`: an existing key keeps its position and grows its
list, a new key is appended at the end. -/
def addMsg (m : List (String × List FailureMsg)) (key : String)
    (v : FailureMsg) : List (String × List FailureMsg) :=
  match m with
  | [] => [(key, [v])]
  | (k, vs) :: rest =>
      if k = key then (k, vs ++ [v]) :: rest else (k, vs) :: addMsg rest key v

/-- The message list bound to a key (empty when absent). -/
def msgsFor (m : List (String × List FailureMsg)) (key : String) :
    List FailureMsg :=
  match m with
  | [] => []
  | (k, vs) :: rest => if k = key then vs else msgsFor rest key

/-- Whether a key is present in the message dict. -/
def hasKey (m : List (String × List FailureMsg)) (key : String) : Bool :=
  match m with
  | [] => false
  | (k, _) :: rest => k = key || hasKey rest key

/-- The `testedFile` of a test entry:
`os.path.join(p.path, 'tests', testResult['filename'])`. -/
def testedFileOf (ppath : String) (tr : TestResult) : String :=
  pyJoin (pyJoin ppath "tests") tr.filename

/-- The `logsDirectory` of a test entry: the per-index subdirectory of
the problem's results directory, with a `validator` subdirectory for
non-`solutions` tests. -/
def logsDirectoryOf (problemResultsDirectory : String) (tr : TestResult) :
    String :=
  if tr.ty = "solutions" then
    pyJoin problemResultsDirectory (toString tr.index)
  else
    pyJoin (pyJoin problemResultsDirectory (toString tr.index)) "validator"

/-- The `expected` dictionary of the validator: for `solutions` tests the
solution dict minus `filename`, defaulting to `{'verdict': 'AC'}` when no
constraint remains; for other tests always `{'verdict': 'AC'}`.  (Used
only by the progress logging in the source.) -/
def expectedOf (tr : TestResult) : List (String × String) :=
  if tr.ty = "solutions" then
    let e := tr.solution.filter fun kv => kv.1 ≠ "filename"
    if e = [] then [("verdict", "AC")] else e
  else [("verdict", "AC")]

/-- The set (as a list, membership is all that is consulted) of case
names whose verdict differs from `AC`, across all groups. -/
def failedCasesOf (res : RunResult) : List String :=
  ((res.groups.flatMap GroupRes.cases).filter fun c => c.verdict ≠ "AC").map
    CaseRes.name

/-- The `associatedFile` of an artifact: the tested solution file for
`solutions` tests, `cases/<caseName>.in` under the problem path
otherwise. -/
def assocFileOf (ty ppath testedFile caseName : String) : String :=
  if ty = "solutions" then testedFile
  else pyJoin (pyJoin ppath "cases") (caseName ++ ".in")

/-- The artifact-correlation loop over a logs-directory listing: keep
files ending in `.err` whose stem is a failed case, and append each
file's message (its name plus indented content) under its associated
file. -/
def collectArtifacts (ty ppath testedFile : String)
    (failedCases : List String) (listing : List (String × String))
    (msgs : List (String × List FailureMsg)) :
    List (String × List FailureMsg) :=
  match listing with
  | [] => msgs
  | (nm, content) :: rest =>
      let caseName := splitextStem nm
      if strEndsWith nm ".err" = false then
        collectArtifacts ty ppath testedFile failedCases rest msgs
      else if caseName ∉ failedCases then
        collectArtifacts ty ppath testedFile failedCases rest msgs
      else
        collectArtifacts ty ppath testedFile failedCases rest
          (addMsg msgs (assocFileOf ty ppath testedFile caseName)
            (.artifactLog nm (pyIndent content)))

/-- One `ci_error` emission per entry of the per-test message dict, in
insertion order. -/
def emitEvents (m : List (String × List FailureMsg)) : List Event :=
  m.map fun kv => .ciEmit kv.1 kv.2

/-- What validating one test entry produces: the contribution to
`anyFailure`, the (per-test) `failureMessages` dict, and the diagnostics
emitted. -/
structure TestOutcome where
  failed : Bool
  msgs : List (String × List FailureMsg)
  events : List Event
deriving DecidableEq, Repr

/-- The score-precision check of `runtests._main` (lines 152-161): the
contribution to `anyFailure` and the failure message recorded under the
tested file when `scaledScore != int(scaledScore)`. -/
def scoreCheckOutcome (testedFile : String) (s : ℚ) :
    Bool × List (String × List FailureMsg) :=
  if scaledScoreOf s ≠ ((ratTrunc (scaledScoreOf s) : ℤ) : ℚ) then
    (true, addMsg [] testedFile (.scoreNotInteger (scaledScoreOf s)))
  else (false, [])

/-- The body of the `for testResult in report.get('tests', [])` loop of
`runtests._main`: resolve the score (raising on `None`), run the
score-precision check, and for a non-passed test correlate `.err`
artifacts of failed cases (warning when the logs directory is missing);
in CI mode emit one annotation per file of the per-test dict. -/
def validateTest (ci : Bool) (ppath problemResultsDirectory : String)
    (fsListing : String → Option (List (String × String)))
    (tr : TestResult) : Except String TestOutcome :=
  let testedFile := testedFileOf ppath tr
  let logsDirectory := logsDirectoryOf problemResultsDirectory tr
  match scoreOfTest tr with
  | .error e => .error e
  | .ok s =>
      let st := scoreCheckOutcome testedFile s
      if tr.state ≠ "passed" then
        match tr.result with
        | none => .error "KeyError: result"
        | some res =>
            let failedCases := failedCasesOf res
            match fsListing logsDirectory with
            | some listing =>
                let msgs2 :=
                  collectArtifacts tr.ty ppath testedFile failedCases
                    listing st.2
                .ok ⟨st.1, msgs2, if ci then emitEvents msgs2 else []⟩
            | none =>
                .ok ⟨st.1, st.2,
                  .warnLogsDirMissing logsDirectory ::
                    (if ci then emitEvents st.2 else [])⟩
      else
        .ok ⟨st.1, st.2, if ci then emitEvents st.2 else []⟩

/-! ### `runtests.py`: the per-problem step and the main loop -/

/-- `os.path.join(p.path, 'settings.json')`, the attribution used for
invocation failures and skipped reports. -/
def settingsFileOf (p : Problem) : String :=
  pyJoin p.path "settings.json"

/-- Sequential validation of a report's test entries: an exception in
any entry aborts the whole loop; otherwise the failure flags are OR-ed
and the diagnostics concatenated in order. -/
def processTests (ci : Bool) (ppath problemResultsDirectory : String)
    (fsListing : String → Option (List (String × String))) :
    List TestResult → Except String (Bool × List Event)
  | [] => .ok (false, [])
  | tr :: rest =>
      match validateTest ci ppath problemResultsDirectory fsListing tr with
      | .error e => .error e
      | .ok out =>
          match processTests ci ppath problemResultsDirectory fsListing rest with
          | .error e => .error e
          | .ok (f, evs) => .ok (out.failed || f, out.events ++ evs)

/-- One iteration of the main loop of `runtests._main`: a non-zero exit
is an error attributed to the settings file; malformed report JSON
raises; a skipped report is an error attributed to the settings file
with no per-test validation; otherwise every test entry is validated and
the problem is failed when the report state is not `passed` or any test
failed. -/
def processProblem (ci : Bool) (resultsDirectory : String)
    (pr : ProblemRun) : Except String (Bool × List Event) :=
  if pr.returncode ≠ 0 then
    .ok (true,
      [.errorEvt (.failedToRun pr.prob.title pr.stderr)
        (settingsFileOf pr.prob)])
  else
    match pr.parsed with
    | none => .error "json.JSONDecodeError"
    | some report =>
        if report.state = "skipped" then
          .ok (true,
            [.errorEvt (.skippedProblem pr.prob.title)
              (settingsFileOf pr.prob)])
        else
          let problemResultsDirectory := pyJoin resultsDirectory pr.prob.path
          match processTests ci pr.prob.path problemResultsDirectory
              pr.logsListing (report.tests.getD []) with
          | .error e => .error e
          | .ok (f, evs) =>
              .ok ((if report.state = "passed" then f else true), evs)

/-- The main loop over the selected problems.  The triple is the final
`anyFailure` flag, the diagnostics in emission order, and the uncaught
exception, if one aborted the loop (in which case later problems are
never processed). -/
def runAll (ci : Bool) (resultsDirectory : String) :
    List ProblemRun → Bool × List Event × Option String
  | [] => (false, [], none)
  | pr :: rest =>
      match processProblem ci resultsDirectory pr with
      | .error e => (false, [], some e)
      | .ok (f, evs) =>
          let r := runAll ci resultsDirectory rest
          (f || r.1, evs ++ r.2.1, r.2.2)

/-- Number of `ci_error` emissions attributed to a given file. -/
def countCiEmits (evs : List Event) (file : String) : ℕ :=
  evs.countP fun e =>
    match e with
    | .ciEmit f _ => decide (f = file)
    | _ => false

/-! ### `runtests.py`: the results-directory reset (lines 56-58)

A minimal filesystem model: the sets of existing directory paths and
file paths.  `shutil.rmtree(d)` removes `d` and every path below it;
`os.makedirs(p)` fails when `p` already exists and otherwise records the
new directory (parent creation is irrelevant here: the parent of the
results directory is the repository root, which exists). -/

/-- A filesystem snapshot: which directories and which files exist. -/
structure FS where
  dirs : List String
  files : List String
deriving DecidableEq, Repr

/-- `p` lies strictly below `root` (it extends `root ++ "/"`). -/
def isUnder (root p : String) : Prop :=
  (chars (root ++ "/")) <+: chars p

instance (root p : String) : Decidable (isUnder root p) := by
  unfold isUnder
  infer_instance

/-- Model of `os.path.isdir`. -/
def pyIsdir (fs : FS) (p : String) : Bool :=
  decide (p ∈ fs.dirs)

/-- Model of `shutil.rmtree(root)`: drop `root` and everything below. -/
def shutilRmtree (fs : FS) (root : String) : FS :=
  ⟨fs.dirs.filter fun p => decide ¬(p = root ∨ isUnder root p),
   fs.files.filter fun p => decide ¬(p = root ∨ isUnder root p)⟩

/-- Model of `os.makedirs(p)`: `FileExistsError` when `p` exists,
otherwise the directory is recorded. -/
def osMakedirs (fs : FS) (p : String) : Except String FS :=
  if p ∈ fs.dirs ∨ p ∈ fs.files then .error "FileExistsError"
  else .ok ⟨p :: fs.dirs, fs.files⟩

/-- Lines 56-58 of `runtests._main`: remove the results directory tree
when it is a directory, then create it afresh. -/
def resetResultsDirectory (fs : FS) (resultsDirectory : String) :
    Except String FS :=
  osMakedirs
    (if pyIsdir fs resultsDirectory then shutilRmtree fs resultsDirectory
     else fs)
    resultsDirectory

/-! ### Concrete inputs used by witnesses and counterexamples -/

/-- A problem run whose sandbox exits zero but prints stdout that is not
valid JSON. -/
def malformedRun : ProblemRun :=
  { prob := ⟨"p1", "P1"⟩, returncode := 0, stderr := "",
    parsed := none, logsListing := fun _ => none }

/-- A problem run whose report parses and passes with no tests. -/
def passingRun : ProblemRun :=
  { prob := ⟨"p2", "P2"⟩, returncode := 0, stderr := "",
    parsed := some ⟨"passed", some []⟩, logsListing := fun _ => none }

/-- A `solutions` test entry whose verdict is `AC` everywhere but whose
raw score `1/3` scales to a non-integer. -/
def thirdScoreTest : TestResult :=
  { ty := "solutions", filename := "sol.py", index := 0, state := "passed",
    solution := [], result := some ⟨some "AC", some (1/3), []⟩ }

/-- A problem run whose report carries two copies of `thirdScoreTest`,
so the same tested file accrues a failure message in two distinct test
entries. -/
def twoTestsRun : ProblemRun :=
  { prob := ⟨"pp", "T"⟩, returncode := 0, stderr := "",
    parsed := some ⟨"passed", some [thirdScoreTest, thirdScoreTest]⟩,
    logsListing := fun _ => none }

/-- A report with state `skipped`. -/
def skippedRun : ProblemRun :=
  { prob := ⟨"p3", "P3"⟩, returncode := 0, stderr := "",
    parsed := some ⟨"skipped", none⟩, logsListing := fun _ => none }

/-- A `solutions` test entry with verdict `AC` and the raw score
`0.333333333333335` of the specification's example. -/
def driftScoreTest : TestResult :=
  { ty := "solutions", filename := "sol.py", index := 0, state := "passed",
    solution := [],
    result := some ⟨some "AC", some ((333333333333335 : ℚ) / 10 ^ 15), []⟩ }

/-- A test entry whose raw `result` object is missing entirely. -/
def noResultTest : TestResult :=
  { ty := "solutions", filename := "sol.py", index := 0, state := "passed",
    solution := [], result := none }

/-- A failed `validator` test entry with one failed case `case07` and
one accepted case `case08`. -/
def failedValidatorTest : TestResult :=
  { ty := "validator", filename := "val.py", index := 1, state := "failed",
    solution := [],
    result := some ⟨some "WA", some 1,
      [⟨[⟨"case07", "WA"⟩, ⟨"case08", "AC"⟩]⟩]⟩ }

/-- A logs filesystem for `failedValidatorTest`: the validator logs
directory holds artifacts for the failed case, the passing case, and a
non-`.err` file. -/
def validatorLogsFS : String → Option (List (String × String)) :=
  fun d =>
    if d = "results/pp/1/validator" then
      some [("case07.err", "boom\nbam"), ("case07.out", "y"),
        ("case08.err", "x")]
    else none

/-- A filesystem with a previous run's results tree plus unrelated
paths. -/
def staleResultsFS : FS :=
  ⟨["results", "results/p1", "other"], ["results/p1/ci.log", "notes.txt"]⟩

/-! ## Helper lemmas -/

theorem pyReplaceChar_append (a b : List Char) (pat : Char) (rep : List Char) :
    pyReplaceChar (a ++ b) pat rep =
      pyReplaceChar a pat rep ++ pyReplaceChar b pat rep := by
  induction a with
  | nil => rfl
  | cons c t ih => simp [pyReplaceChar, ih]

theorem escListChain_append (a b : List Char) :
    escListChain (a ++ b) = escListChain a ++ escListChain b := by
  simp [escListChain, pyReplaceChar_append]

theorem escChar_other {c : Char} (h1 : c ≠ '%') (h2 : c ≠ '\r')
    (h3 : c ≠ '\n') : escChar c = [c] := by
  simp [escChar, h1, h2, h3]

theorem escListChain_singleton (c : Char) : escListChain [c] = escChar c := by
  by_cases h1 : c = '%'
  · subst h1; rfl
  · by_cases h2 : c = '\r'
    · subst h2; rfl
    · by_cases h3 : c = '\n'
      · subst h3; rfl
      · rw [escChar_other h1 h2 h3]
        simp [escListChain, pyReplaceChar, h1, h2, h3]

theorem escListChain_eq_flatMap (l : List Char) :
    escListChain l = l.flatMap escChar := by
  induction l with
  | nil => rfl
  | cons c t ih =>
      have hct : (c :: t) = [c] ++ t := rfl
      rw [hct, escListChain_append, ih, escListChain_singleton,
        List.flatMap_append]
      simp

theorem ciUnescapeL_cons25 (t : List Char) :
    ciUnescapeL ('%' :: '2' :: '5' :: t) = '%' :: ciUnescapeL t := by
  rw [ciUnescapeL]
  simp

theorem ciUnescapeL_cons0D (t : List Char) :
    ciUnescapeL ('%' :: '0' :: 'D' :: t) = '\r' :: ciUnescapeL t := by
  rw [ciUnescapeL]
  simp

theorem ciUnescapeL_cons0A (t : List Char) :
    ciUnescapeL ('%' :: '0' :: 'A' :: t) = '\n' :: ciUnescapeL t := by
  rw [ciUnescapeL]
  simp

theorem ciUnescapeL_cons_other {c : Char} (h1 : c ≠ '%') (t : List Char) :
    ciUnescapeL (c :: t) = c :: ciUnescapeL t := by
  rw [ciUnescapeL]
  simp [h1]

theorem ciUnescapeL_flatMap (l : List Char) :
    ciUnescapeL (l.flatMap escChar) = l := by
  induction l with
  | nil => simp [ciUnescapeL]
  | cons c t ih =>
      rw [List.flatMap_cons]
      by_cases h1 : c = '%'
      · subst h1
        have : escChar '%' ++ t.flatMap escChar =
            '%' :: '2' :: '5' :: t.flatMap escChar := rfl
        rw [this, ciUnescapeL_cons25, ih]
      · by_cases h2 : c = '\r'
        · subst h2
          have : escChar '\r' ++ t.flatMap escChar =
              '%' :: '0' :: 'D' :: t.flatMap escChar := rfl
          rw [this, ciUnescapeL_cons0D, ih]
        · by_cases h3 : c = '\n'
          · subst h3
            have : escChar '\n' ++ t.flatMap escChar =
                '%' :: '0' :: 'A' :: t.flatMap escChar := rfl
            rw [this, ciUnescapeL_cons0A, ih]
          · rw [escChar_other h1 h2 h3, List.singleton_append,
              ciUnescapeL_cons_other h1, ih]

theorem chars_mk (l : List Char) : chars ⟨l⟩ = l := rfl

theorem mk_chars (s : String) : (⟨chars s⟩ : String) = s := by
  cases s; rfl

/-! ## Claims -/

/-- C8: the CI-annotation escaping of `problems.ci_error` replaces `%`,
carriage return and line feed -- in that order -- by `%25`, `%0D` and
`%0A`, acting independently on each character and leaving every other
character unchanged (the `flatMap escChar` description); applying the
inverse substitution recovers the original message, so the escaping is
injective. -/
theorem ciEscapeRoundTrip :
    (∀ s : String, chars (ciEscape s) = (chars s).flatMap escChar) ∧
    (∀ s : String, ciUnescape (ciEscape s) = s) ∧
    Function.Injective ciEscape := by
  have h1 : ∀ s : String, chars (ciEscape s) = (chars s).flatMap escChar := by
    intro s
    show chars ⟨escListChain (chars s)⟩ = _
    rw [chars_mk, escListChain_eq_flatMap]
  have h2 : ∀ s : String, ciUnescape (ciEscape s) = s := by
    intro s
    show (⟨ciUnescapeL (chars (ciEscape s))⟩ : String) = s
    rw [h1 s, ciUnescapeL_flatMap, mk_chars]
  exact ⟨h1, h2, Function.LeftInverse.injective h2⟩

/-- Witness for C8: the round trip evaluated on a concrete message
containing `%`, a carriage return and a line feed. -/
theorem ciEscapeRoundTripWitness :
    ciUnescape (ciEscape "50% done\r\nnext 25%") = "50% done\r\nnext 25%" :=
  ciEscapeRoundTrip.2.1 "50% done\r\nnext 25%"

/-- C5: with no explicit paths and `allProblems` off, a non-disabled
catalog entry is selected iff its path occurs as a substring of the raw
ChangeSet text; disabled entries never appear; catalog order is
preserved (the selection is a sublist of the catalog). -/
theorem incrementalSelection (cfg : List CatalogEntry) (changes : String)
    (hnd : (cfg.map CatalogEntry.path).Nodup) :
    ∃ l, selectProblems false [] ⟨some cfg, changes⟩ = .ok l ∧
      (∀ e ∈ cfg,
        (Problem.mk e.path e.title ∈ l ↔
          (e.disabled = false ∧ strContainsSub changes e.path = true))) ∧
      l.Sublist (cfg.map fun e => ⟨e.path, e.title⟩) := by
  refine ⟨(configProblemsOf cfg).filter fun p =>
    strContainsSub changes p.path, rfl, ?_, ?_⟩
  · intro e he
    rw [List.mem_filter]
    constructor
    · rintro ⟨hmem, hsub⟩
      rw [configProblemsOf, List.mem_map] at hmem
      obtain ⟨e', he', heq⟩ := hmem
      rw [List.mem_filter] at he'
      have hpath : e'.path = e.path := congrArg Problem.path heq
      have : e' = e := List.inj_on_of_nodup_map hnd he'.1 he hpath
      subst this
      refine ⟨?_, hsub⟩
      simpa using he'.2
    · rintro ⟨hdis, hsub⟩
      refine ⟨?_, hsub⟩
      rw [configProblemsOf, List.mem_map]
      exact ⟨e, List.mem_filter.mpr ⟨he, by simp [hdis]⟩, rfl⟩
  · exact (List.filter_sublist _).trans
      (List.Sublist.map _ (List.filter_sublist _))

/-- Witness for C5 at a concrete catalog and ChangeSet: of the two
non-disabled problems only `p/one` occurs in the diff text, and the
disabled `p/two` is never selected. -/
theorem incrementalSelectionWitness :
    ∃ l, selectProblems false []
        ⟨some [⟨"p/one", "A", false⟩, ⟨"p/two", "B", true⟩,
          ⟨"p/three", "C", false⟩], "M p/one/statements/es.md"⟩ = .ok l ∧
      (∀ e ∈ [CatalogEntry.mk "p/one" "A" false,
          CatalogEntry.mk "p/two" "B" true,
          CatalogEntry.mk "p/three" "C" false],
        (Problem.mk e.path e.title ∈ l ↔
          (e.disabled = false ∧
            strContainsSub "M p/one/statements/es.md" e.path = true))) ∧
      l.Sublist
        ([CatalogEntry.mk "p/one" "A" false,
          CatalogEntry.mk "p/two" "B" true,
          CatalogEntry.mk "p/three" "C" false].map fun e =>
            ⟨e.path, e.title⟩) :=
  incrementalSelection _ _ (by decide)

/-- C6 counterexample: with a non-empty explicit path list the call
still opens and parses `problems.json` first, so it fails when the
catalog cannot be read -- the claim that no catalog read is required for
the call to succeed is false. -/
theorem explicitPathsCatalogStillRead :
    selectProblems true ["a/b"] ⟨none, ""⟩ =
      .error "problems.json could not be read" := rfl

/-- C6 (amended): when the catalog is readable, a non-empty explicit
path list short-circuits both the `allProblems` flag and the ChangeSet
filter: the result is one synthesized problem per path, in order, with
the path's final segment as title, independent of the catalog's
contents and of the diff text. -/
theorem explicitPathsShortCircuit (allP : Bool) (paths : List String)
    (cfg : List CatalogEntry) (changes : String) (h : paths ≠ []) :
    selectProblems allP paths ⟨some cfg, changes⟩ =
      .ok (paths.map fun p => ⟨p, pyBasename p⟩) := by
  simp [selectProblems, h]

/-- Witness for the amended C6: two explicit paths, a catalog whose only
entry is unrelated, `allProblems` on, and a ChangeSet mentioning
neither path. -/
theorem explicitPathsShortCircuitWitness :
    selectProblems true ["x/y/z", "w"]
        ⟨some [⟨"q", "Q", false⟩], "diff text"⟩ =
      .ok (["x/y/z", "w"].map fun p => ⟨p, pyBasename p⟩) :=
  explicitPathsShortCircuit true ["x/y/z", "w"] [⟨"q", "Q", false⟩]
    "diff text" (by decide)

theorem pyDictGet_score (tr : TestResult) (dflt : PyVal) :
    pyDictGet (gotDict tr) "score" dflt =
      decValOf (tr.result.bind RunResult.score) := by
  show (if "verdict" = "score" then _ else if "score" = "score" then _
    else dflt) = _
  rw [if_neg (by decide), if_pos rfl]

theorem scoreOfTest_some {tr : TestResult} {res : RunResult} {s : ℚ}
    (h1 : tr.result = some res) (h2 : res.score = some s) :
    scoreOfTest tr = .ok s := by
  rw [scoreOfTest, pyDictGet_score, h1]
  simp [Option.bind, h2, decValOf, pyDecimal]

theorem scoreCheckOutcome_pos {s : ℚ} (tf : String)
    (hpf : scaledScoreOf s ≠ ((ratTrunc (scaledScoreOf s) : ℤ) : ℚ)) :
    scoreCheckOutcome tf s =
      (true, addMsg [] tf (.scoreNotInteger (scaledScoreOf s))) := by
  rw [scoreCheckOutcome, if_pos hpf]

theorem scoreCheckOutcome_neg {s : ℚ} (tf : String)
    (hpf : ¬scaledScoreOf s ≠ ((ratTrunc (scaledScoreOf s) : ℤ) : ℚ)) :
    scoreCheckOutcome tf s = (false, []) := by
  rw [scoreCheckOutcome, if_neg hpf]

theorem scoreCheckOutcome_fst (tf : String) (s : ℚ) :
    ((scoreCheckOutcome tf s).1 = true ↔
      scaledScoreOf s ≠ ((ratTrunc (scaledScoreOf s) : ℤ) : ℚ)) := by
  by_cases hpf : scaledScoreOf s ≠ ((ratTrunc (scaledScoreOf s) : ℤ) : ℚ)
  · rw [scoreCheckOutcome_pos tf hpf]
    simpa using hpf
  · rw [scoreCheckOutcome_neg tf hpf]
    simpa using hpf

theorem scoreOfTest_none {tr : TestResult}
    (h : tr.result.bind RunResult.score = none) :
    scoreOfTest tr = .error "TypeError: conversion from NoneType to Decimal" := by
  rw [scoreOfTest, pyDictGet_score, h]
  rfl

/-- C1: for every test entry carrying a score, validation succeeds and
its contribution to `anyFailure` is `true` exactly when
`round(score, 15) * 100` differs from its integer truncation --
independent of the entry's state, its verdicts and the logs filesystem,
all of which are universally quantified here.  Concretely, the raw score
`0.333333333333335` violates the invariant (even with every verdict
`AC`, as in the quantified part) while the raw score `1` does not. -/
theorem scorePrecisionInvariant :
    (∀ (ci : Bool) (ppath prd : String)
      (fsL : String → Option (List (String × String)))
      (tr : TestResult) (res : RunResult) (s : ℚ),
      tr.result = some res → res.score = some s →
      ∃ out, validateTest ci ppath prd fsL tr = .ok out ∧
        (out.failed = true ↔
          scaledScoreOf s ≠ ((ratTrunc (scaledScoreOf s) : ℤ) : ℚ))) ∧
    scaledScoreOf ((333333333333335 : ℚ) / 10 ^ 15) ≠
      ((ratTrunc (scaledScoreOf ((333333333333335 : ℚ) / 10 ^ 15)) : ℤ) : ℚ) ∧
    scaledScoreOf 1 = ((ratTrunc (scaledScoreOf 1) : ℤ) : ℚ) := by
  refine ⟨?_, ?_, ?_⟩
  · intro ci ppath prd fsL tr res s h1 h2
    rw [validateTest, scoreOfTest_some h1 h2]
    dsimp only
    by_cases hst : tr.state ≠ "passed"
    · rw [if_pos hst, h1]
      dsimp only
      cases hfs : fsL (logsDirectoryOf prd tr) with
      | some listing => exact ⟨_, rfl, scoreCheckOutcome_fst _ _⟩
      | none => exact ⟨_, rfl, scoreCheckOutcome_fst _ _⟩
    · rw [if_neg hst]
      exact ⟨_, rfl, scoreCheckOutcome_fst _ _⟩
  · norm_num [scaledScoreOf, roundDec, roundHalfEven, ratTrunc]
  · norm_num [scaledScoreOf, roundDec, roundHalfEven, ratTrunc]

/-- Witness for C1: the quantified part applied to the concrete entry
with raw score `0.333333333333335` and every verdict `AC`. -/
theorem scorePrecisionInvariantWitness :
    ∃ out, validateTest false "pp" "results/pp" (fun _ => none)
        driftScoreTest = .ok out ∧
      (out.failed = true ↔
        scaledScoreOf ((333333333333335 : ℚ) / 10 ^ 15) ≠
          ((ratTrunc (scaledScoreOf ((333333333333335 : ℚ) / 10 ^ 15)) :
            ℤ) : ℚ)) :=
  scorePrecisionInvariant.1 false "pp" "results/pp" (fun _ => none)
    driftScoreTest ⟨some "AC", some ((333333333333335 : ℚ) / 10 ^ 15), []⟩
    ((333333333333335 : ℚ) / 10 ^ 15) rfl rfl

/-- C9: when a test entry has no `result.score` (a missing result object
or a missing score), the observed-outcome dictionary still carries the
`'score'` key bound to `None` -- the `got.get('score', 0)` fallback is
unreachable, whatever the default -- and the `Decimal` conversion raises
a `TypeError` instead of treating the score as `0`. -/
theorem missingScoreRaises :
    ∀ (ci : Bool) (ppath prd : String)
      (fsL : String → Option (List (String × String))) (tr : TestResult),
      tr.result.bind RunResult.score = none →
      validateTest ci ppath prd fsL tr =
        .error "TypeError: conversion from NoneType to Decimal" ∧
      ∀ dflt, pyDictGet (gotDict tr) "score" dflt = .vnone := by
  intro ci ppath prd fsL tr h
  constructor
  · rw [validateTest, scoreOfTest_none h]
  · intro dflt
    rw [pyDictGet_score, h]
    rfl

/-- Witness for C9 at a concrete entry with no `result` object. -/
theorem missingScoreRaisesWitness :
    validateTest false "pp" "results/pp" (fun _ => none) noResultTest =
      .error "TypeError: conversion from NoneType to Decimal" ∧
    ∀ dflt, pyDictGet (gotDict noResultTest) "score" dflt = .vnone :=
  missingScoreRaises false "pp" "results/pp" (fun _ => none) noResultTest rfl

/-- C3: a report with state `skipped` yields exactly one failure record,
attributed to the problem's `settings.json`, marks the problem failed,
performs no per-test validation (the single error event is the whole
output), and the main loop continues with the remaining problems. -/
theorem skipShortCircuit (ci : Bool) (rd : String) (pr : ProblemRun)
    (report : Report) (rest : List ProblemRun)
    (h0 : pr.returncode = 0) (h1 : pr.parsed = some report)
    (h2 : report.state = "skipped") :
    processProblem ci rd pr =
      .ok (true, [.errorEvt (.skippedProblem pr.prob.title)
        (settingsFileOf pr.prob)]) ∧
    runAll ci rd (pr :: rest) =
      (true,
        .errorEvt (.skippedProblem pr.prob.title) (settingsFileOf pr.prob) ::
          (runAll ci rd rest).2.1,
        (runAll ci rd rest).2.2) := by
  have hp : processProblem ci rd pr =
      .ok (true, [.errorEvt (.skippedProblem pr.prob.title)
        (settingsFileOf pr.prob)]) := by
    rw [processProblem, if_neg (by simp [h0]), h1]
    dsimp only
    rw [if_pos h2]
  exact ⟨hp, by rw [runAll, hp]; simp⟩

/-- Witness for C3 at a concrete skipped run followed by a passing
run. -/
theorem skipShortCircuitWitness :
    processProblem false "results" skippedRun =
      .ok (true, [.errorEvt (.skippedProblem skippedRun.prob.title)
        (settingsFileOf skippedRun.prob)]) ∧
    runAll false "results" (skippedRun :: [passingRun]) =
      (true,
        .errorEvt (.skippedProblem skippedRun.prob.title)
            (settingsFileOf skippedRun.prob) ::
          (runAll false "results" [passingRun]).2.1,
        (runAll false "results" [passingRun]).2.2) :=
  skipShortCircuit false "results" skippedRun ⟨"skipped", none⟩ [passingRun]
    rfl rfl rfl

/-- C4 counterexample: a run whose first problem emits malformed report
JSON aborts the whole loop with an uncaught `json.JSONDecodeError`: no
failure record is produced for the malformed problem and the second
(perfectly healthy) problem is never validated, although on its own it
would have succeeded.  This refutes the claim that malformed JSON is
recorded per problem and does not abort the process. -/
theorem malformedJsonAbortsCounterexample :
    runAll false "results" [malformedRun, passingRun] =
      (false, [], some "json.JSONDecodeError") ∧
    runAll false "results" [passingRun] = (false, [], none) := ⟨rfl, rfl⟩

/-- C4 (amended): a zero-exit invocation whose stdout is not valid JSON
raises an uncaught `json.JSONDecodeError` in `json.loads`: the whole run
aborts at that problem, no failure record is produced for it, and the
remaining selected problems are never validated. -/
theorem malformedJsonAbortsRun (ci : Bool) (rd : String) (pr : ProblemRun)
    (rest : List ProblemRun) (h0 : pr.returncode = 0)
    (h1 : pr.parsed = none) :
    processProblem ci rd pr = .error "json.JSONDecodeError" ∧
    runAll ci rd (pr :: rest) = (false, [], some "json.JSONDecodeError") := by
  have hp : processProblem ci rd pr = .error "json.JSONDecodeError" := by
    rw [processProblem, if_neg (by simp [h0]), h1]
  exact ⟨hp, by rw [runAll, hp]⟩

theorem msgsFor_addMsg_self (m : List (String × List FailureMsg))
    (k : String) (v : FailureMsg) :
    msgsFor (addMsg m k v) k = msgsFor m k ++ [v] := by
  induction m with
  | nil => simp [addMsg, msgsFor]
  | cons kv rest ih =>
      obtain ⟨k0, vs⟩ := kv
      by_cases h : k0 = k
      · subst h; simp [addMsg, msgsFor]
      · simp [addMsg, msgsFor, h, ih]

theorem msgsFor_addMsg_ne (m : List (String × List FailureMsg))
    {k k' : String} (h : k' ≠ k) (v : FailureMsg) :
    msgsFor (addMsg m k v) k' = msgsFor m k' := by
  induction m with
  | nil => simp [addMsg, msgsFor, Ne.symm h]
  | cons kv rest ih =>
      obtain ⟨k0, vs⟩ := kv
      by_cases h0 : k0 = k
      · subst h0; simp [addMsg, msgsFor, Ne.symm h]
      · simp [addMsg, msgsFor, h0, ih]

theorem mem_msgsFor_addMsg {v' : FailureMsg}
    {m : List (String × List FailureMsg)} {k : String} {v : FailureMsg}
    {f : String} :
    v' ∈ msgsFor (addMsg m k v) f ↔
      v' ∈ msgsFor m f ∨ (f = k ∧ v' = v) := by
  by_cases hf : f = k
  · subst hf; rw [msgsFor_addMsg_self]; simp
  · rw [msgsFor_addMsg_ne _ hf]; simp [hf]

theorem strEndsWith_true_of_not_false {nm : String}
    (h : ¬strEndsWith nm ".err" = false) : strEndsWith nm ".err" = true := by
  revert h
  cases strEndsWith nm ".err" <;> simp

theorem mem_msgsFor_collectArtifacts (ty pp tf : String) (fc : List String)
    (L : List (String × String)) (m : List (String × List FailureMsg))
    (f : String) (v : FailureMsg) :
    v ∈ msgsFor (collectArtifacts ty pp tf fc L m) f ↔
      (v ∈ msgsFor m f ∨ ∃ nm c, (nm, c) ∈ L ∧
        strEndsWith nm ".err" = true ∧ splitextStem nm ∈ fc ∧
        f = assocFileOf ty pp tf (splitextStem nm) ∧
        v = .artifactLog nm (pyIndent c)) := by
  induction L generalizing m with
  | nil => simp [collectArtifacts]
  | cons hd rest ih =>
      obtain ⟨nm, c⟩ := hd
      rw [collectArtifacts]
      by_cases h1 : strEndsWith nm ".err" = false
      · rw [if_pos h1, ih]
        simp only [List.mem_cons]
        constructor
        · rintro (hm | ⟨nm', c', hin, h2, h3, h4, h5⟩)
          · exact Or.inl hm
          · exact Or.inr ⟨nm', c', Or.inr hin, h2, h3, h4, h5⟩
        · rintro (hm | ⟨nm', c', (heq | hin), h2, h3, h4, h5⟩)
          · exact Or.inl hm
          · rw [Prod.mk.injEq] at heq
            obtain ⟨rfl, rfl⟩ := heq
            rw [h1] at h2
            exact absurd h2 (by simp)
          · exact Or.inr ⟨nm', c', hin, h2, h3, h4, h5⟩
      · rw [if_neg h1]
        have h1' : strEndsWith nm ".err" = true :=
          strEndsWith_true_of_not_false h1
        by_cases h2c : splitextStem nm ∉ fc
        · rw [if_pos h2c, ih]
          simp only [List.mem_cons]
          constructor
          · rintro (hm | ⟨nm', c', hin, h2, h3, h4, h5⟩)
            · exact Or.inl hm
            · exact Or.inr ⟨nm', c', Or.inr hin, h2, h3, h4, h5⟩
          · rintro (hm | ⟨nm', c', (heq | hin), h2, h3, h4, h5⟩)
            · exact Or.inl hm
            · rw [Prod.mk.injEq] at heq
              obtain ⟨rfl, rfl⟩ := heq
              exact absurd h3 h2c
            · exact Or.inr ⟨nm', c', hin, h2, h3, h4, h5⟩
        · rw [if_neg h2c, ih]
          rw [not_not] at h2c
          simp only [List.mem_cons]
          constructor
          · rintro (hm | ⟨nm', c', hin, h2, h3, h4, h5⟩)
            · rw [mem_msgsFor_addMsg] at hm
              rcases hm with hm | ⟨hfk, hvv⟩
              · exact Or.inl hm
              · exact Or.inr ⟨nm, c, Or.inl rfl, h1', h2c, hfk, hvv⟩
            · exact Or.inr ⟨nm', c', Or.inr hin, h2, h3, h4, h5⟩
          · rintro (hm | ⟨nm', c', (heq | hin), h2, h3, h4, h5⟩)
            · exact Or.inl (mem_msgsFor_addMsg.mpr (Or.inl hm))
            · rw [Prod.mk.injEq] at heq
              obtain ⟨rfl, rfl⟩ := heq
              exact Or.inl (mem_msgsFor_addMsg.mpr (Or.inr ⟨h4, h5⟩))
            · exact Or.inr ⟨nm', c', hin, h2, h3, h4, h5⟩

theorem scoreCheck_no_artifact (tf : String) (s : ℚ) (f nm : String)
    (c : String) :
    FailureMsg.artifactLog nm c ∉ msgsFor (scoreCheckOutcome tf s).2 f := by
  by_cases hpf : scaledScoreOf s ≠ ((ratTrunc (scaledScoreOf s) : ℤ) : ℚ)
  · rw [scoreCheckOutcome_pos tf hpf]
    by_cases hf : f = tf
    · subst hf; simp [addMsg, msgsFor]
    · simp [addMsg, msgsFor, Ne.symm hf]
  · rw [scoreCheckOutcome_neg tf hpf]
    simp [msgsFor]

theorem validateTest_shape_listing {tr : TestResult} {res : RunResult}
    {s : ℚ} (ci : Bool) (ppath prd : String)
    (fsL : String → Option (List (String × String)))
    (hst : tr.state ≠ "passed") (hres : tr.result = some res)
    (hscore : res.score = some s) {L : List (String × String)}
    (hL : fsL (logsDirectoryOf prd tr) = some L) :
    validateTest ci ppath prd fsL tr =
      .ok ⟨(scoreCheckOutcome (testedFileOf ppath tr) s).1,
        collectArtifacts tr.ty ppath (testedFileOf ppath tr)
          (failedCasesOf res) L
          (scoreCheckOutcome (testedFileOf ppath tr) s).2,
        if ci then
          emitEvents (collectArtifacts tr.ty ppath (testedFileOf ppath tr)
            (failedCasesOf res) L
            (scoreCheckOutcome (testedFileOf ppath tr) s).2)
        else []⟩ := by
  rw [validateTest, scoreOfTest_some hres hscore]
  dsimp only
  rw [if_pos hst, hres]
  dsimp only
  rw [hL]

theorem validateTest_shape_nodir {tr : TestResult} {res : RunResult}
    {s : ℚ} (ci : Bool) (ppath prd : String)
    (fsL : String → Option (List (String × String)))
    (hst : tr.state ≠ "passed") (hres : tr.result = some res)
    (hscore : res.score = some s)
    (hL : fsL (logsDirectoryOf prd tr) = none) :
    validateTest ci ppath prd fsL tr =
      .ok ⟨(scoreCheckOutcome (testedFileOf ppath tr) s).1,
        (scoreCheckOutcome (testedFileOf ppath tr) s).2,
        .warnLogsDirMissing (logsDirectoryOf prd tr) ::
          (if ci then
            emitEvents (scoreCheckOutcome (testedFileOf ppath tr) s).2
          else [])⟩ := by
  rw [validateTest, scoreOfTest_some hres hscore]
  dsimp only
  rw [if_pos hst, hres]
  dsimp only
  rw [hL]

/-- C2: for a non-passed test entry, every `.err` artifact of the logs
directory whose stem is a failed (non-`AC`) case contributes its message
(the artifact name with the indented content) to the failure-message
sequence of the derived associated file -- the tested solution file for
`solutions` tests, `cases/<case>.in` under the problem path otherwise --
while artifacts that are not `.err` files or whose case is not in the
failed set contribute no record at all; and when the logs directory does
not exist, a missing-directory warning is recorded, no artifact record
exists, and the problem is not thereby marked failed (the failure flag
still reflects exactly the score-precision check). -/
theorem artifactCorrelation (ci : Bool) (ppath prd : String)
    (fsL : String → Option (List (String × String))) (tr : TestResult)
    (res : RunResult) (s : ℚ)
    (hst : tr.state ≠ "passed") (hres : tr.result = some res)
    (hscore : res.score = some s) :
    (∀ L, fsL (logsDirectoryOf prd tr) = some L →
      (L.map Prod.fst).Nodup →
      ∃ out, validateTest ci ppath prd fsL tr = .ok out ∧
        (∀ nm content, (nm, content) ∈ L →
          strEndsWith nm ".err" = true →
          splitextStem nm ∈ failedCasesOf res →
          FailureMsg.artifactLog nm (pyIndent content) ∈
            msgsFor out.msgs
              (assocFileOf tr.ty ppath (testedFileOf ppath tr)
                (splitextStem nm))) ∧
        (∀ nm content, (nm, content) ∈ L →
          ¬(strEndsWith nm ".err" = true ∧
            splitextStem nm ∈ failedCasesOf res) →
          ∀ f, FailureMsg.artifactLog nm (pyIndent content) ∉
            msgsFor out.msgs f)) ∧
    (fsL (logsDirectoryOf prd tr) = none →
      ∃ out, validateTest ci ppath prd fsL tr = .ok out ∧
        Event.warnLogsDirMissing (logsDirectoryOf prd tr) ∈ out.events ∧
        (out.failed = true ↔
          scaledScoreOf s ≠ ((ratTrunc (scaledScoreOf s) : ℤ) : ℚ)) ∧
        ∀ f nm c, FailureMsg.artifactLog nm c ∉ msgsFor out.msgs f) := by
  constructor
  · intro L hL hnd
    refine ⟨_, validateTest_shape_listing ci ppath prd fsL hst hres hscore hL,
      ?_, ?_⟩
    · intro nm content hin he hfc
      exact (mem_msgsFor_collectArtifacts _ _ _ _ _ _ _ _).mpr
        (Or.inr ⟨nm, content, hin, he, hfc, rfl, rfl⟩)
    · intro nm content hin hnq f hmem
      rcases (mem_msgsFor_collectArtifacts _ _ _ _ _ _ _ _).mp hmem with
        hm | ⟨nm', c', hin', h2, h3, _, h5⟩
      · exact scoreCheck_no_artifact _ _ _ _ _ hm
      · rw [FailureMsg.artifactLog.injEq] at h5
        obtain ⟨rfl, _⟩ := h5
        have : (nm, content) = (nm, c') :=
          List.inj_on_of_nodup_map hnd hin hin' rfl
        rw [Prod.mk.injEq] at this
        obtain ⟨-, rfl⟩ := this
        exact hnq ⟨h2, h3⟩
  · intro hnone
    refine ⟨_, validateTest_shape_nodir ci ppath prd fsL hst hres hscore hnone,
      List.mem_cons_self _ _, scoreCheckOutcome_fst _ _, ?_⟩
    intro f nm c
    exact scoreCheck_no_artifact _ _ _ _ _

/-- Witness for C2: a failed validator test whose logs directory holds a
`.err` artifact for the failed `case07`, a `.err` artifact for the
accepted `case08`, and a non-`.err` file. -/
theorem artifactCorrelationWitness :
    (∀ L, validatorLogsFS
        (logsDirectoryOf "results/pp" failedValidatorTest) = some L →
      (L.map Prod.fst).Nodup →
      ∃ out, validateTest true "pp" "results/pp" validatorLogsFS
          failedValidatorTest = .ok out ∧
        (∀ nm content, (nm, content) ∈ L →
          strEndsWith nm ".err" = true →
          splitextStem nm ∈
            failedCasesOf ⟨some "WA", some 1,
              [⟨[⟨"case07", "WA"⟩, ⟨"case08", "AC"⟩]⟩]⟩ →
          FailureMsg.artifactLog nm (pyIndent content) ∈
            msgsFor out.msgs
              (assocFileOf failedValidatorTest.ty "pp"
                (testedFileOf "pp" failedValidatorTest)
                (splitextStem nm))) ∧
        (∀ nm content, (nm, content) ∈ L →
          ¬(strEndsWith nm ".err" = true ∧
            splitextStem nm ∈
              failedCasesOf ⟨some "WA", some 1,
                [⟨[⟨"case07", "WA"⟩, ⟨"case08", "AC"⟩]⟩]⟩) →
          ∀ f, FailureMsg.artifactLog nm (pyIndent content) ∉
            msgsFor out.msgs f)) ∧
    (validatorLogsFS (logsDirectoryOf "results/pp" failedValidatorTest) =
        none →
      ∃ out, validateTest true "pp" "results/pp" validatorLogsFS
          failedValidatorTest = .ok out ∧
        Event.warnLogsDirMissing
          (logsDirectoryOf "results/pp" failedValidatorTest) ∈ out.events ∧
        (out.failed = true ↔
          scaledScoreOf 1 ≠ ((ratTrunc (scaledScoreOf 1) : ℤ) : ℚ)) ∧
        ∀ f nm c, FailureMsg.artifactLog nm c ∉ msgsFor out.msgs f) :=
  artifactCorrelation true "pp" "results/pp" validatorLogsFS
    failedValidatorTest
    ⟨some "WA", some 1, [⟨[⟨"case07", "WA"⟩, ⟨"case08", "AC"⟩]⟩]⟩ 1
    (by decide) rfl rfl

theorem hasKey_iff (m : List (String × List FailureMsg)) (k : String) :
    hasKey m k = true ↔ k ∈ m.map Prod.fst := by
  induction m with
  | nil => simp [hasKey]
  | cons kv rest ih =>
      obtain ⟨k0, vs⟩ := kv
      simp only [hasKey, List.map_cons, List.mem_cons, Bool.or_eq_true,
        decide_eq_true_eq, ih]
      constructor
      · rintro (h | h)
        · exact Or.inl h.symm
        · exact Or.inr h
      · rintro (h | h)
        · exact Or.inl h.symm
        · exact Or.inr h

theorem map_fst_addMsg (m : List (String × List FailureMsg)) (k : String)
    (v : FailureMsg) :
    (addMsg m k v).map Prod.fst =
      if hasKey m k then m.map Prod.fst else m.map Prod.fst ++ [k] := by
  induction m with
  | nil => simp [addMsg, hasKey]
  | cons kv rest ih =>
      obtain ⟨k0, vs⟩ := kv
      by_cases h : k0 = k
      · subst h; simp [addMsg, hasKey]
      · by_cases hr : hasKey rest k
        · simp [addMsg, hasKey, h, hr, ih]
        · simp [addMsg, hasKey, h, hr, ih]

theorem nodup_addMsg {m : List (String × List FailureMsg)} {k : String}
    {v : FailureMsg} (h : (m.map Prod.fst).Nodup) :
    ((addMsg m k v).map Prod.fst).Nodup := by
  rw [map_fst_addMsg]
  by_cases hk : hasKey m k
  · rw [if_pos hk]; exact h
  · rw [if_neg hk]
    have hk' : k ∉ m.map Prod.fst := fun hmem =>
      hk ((hasKey_iff m k).mpr hmem)
    simp [List.nodup_append, h, hk']

theorem nodup_collectArtifacts (ty pp tf : String) (fc : List String)
    (L : List (String × String)) {m : List (String × List FailureMsg)}
    (h : (m.map Prod.fst).Nodup) :
    ((collectArtifacts ty pp tf fc L m).map Prod.fst).Nodup := by
  induction L generalizing m with
  | nil => simpa [collectArtifacts] using h
  | cons hd rest ih =>
      obtain ⟨nm, c⟩ := hd
      rw [collectArtifacts]
      by_cases h1 : strEndsWith nm ".err" = false
      · rw [if_pos h1]; exact ih h
      · rw [if_neg h1]
        by_cases h2 : splitextStem nm ∉ fc
        · rw [if_pos h2]; exact ih h
        · rw [if_neg h2]; exact ih (nodup_addMsg h)

theorem nodup_scoreCheck (tf : String) (s : ℚ) :
    ((scoreCheckOutcome tf s).2.map Prod.fst).Nodup := by
  by_cases hpf : scaledScoreOf s ≠ ((ratTrunc (scaledScoreOf s) : ℤ) : ℚ)
  · rw [scoreCheckOutcome_pos tf hpf]; simp [addMsg]
  · rw [scoreCheckOutcome_neg tf hpf]; simp

theorem countCiEmits_append (a b : List Event) (f : String) :
    countCiEmits (a ++ b) f = countCiEmits a f + countCiEmits b f := by
  simp [countCiEmits, List.countP_append]

theorem countCiEmits_warn_cons (d : String) (evs : List Event) (f : String) :
    countCiEmits (Event.warnLogsDirMissing d :: evs) f = countCiEmits evs f := by
  simp [countCiEmits, List.countP_cons]

theorem countCiEmits_emitEvents (m : List (String × List FailureMsg))
    (f : String) (h : (m.map Prod.fst).Nodup) :
    countCiEmits (emitEvents m) f = if hasKey m f then 1 else 0 := by
  induction m with
  | nil => simp [emitEvents, countCiEmits, hasKey]
  | cons kv rest ih =>
      obtain ⟨k0, vs⟩ := kv
      simp only [List.map_cons, List.nodup_cons] at h
      obtain ⟨hk0, hrest⟩ := h
      by_cases hk : k0 = f
      · subst hk
        have hkey : hasKey rest k0 = false := by
          rw [Bool.eq_false_iff]
          intro hc
          exact hk0 ((hasKey_iff rest k0).mp hc)
        simp [emitEvents, countCiEmits, List.countP_cons, hasKey, ih hrest,
          hkey]
        intro a b hab ha
        subst ha
        exact hk0 (List.mem_map_of_mem Prod.fst hab)
      · simp [emitEvents, countCiEmits, List.countP_cons, hasKey, hk,
          ih hrest]
        simp [countCiEmits, emitEvents] at ih
        rw [ih hrest]

theorem validateTest_count {tr : TestResult} {out : TestOutcome}
    (ppath prd : String) (fsL : String → Option (List (String × String)))
    (h : validateTest true ppath prd fsL tr = .ok out) (f : String) :
    countCiEmits out.events f = if hasKey out.msgs f then 1 else 0 := by
  rw [validateTest] at h
  cases hs : scoreOfTest tr with
  | error e => rw [hs] at h; simp at h
  | ok s =>
      rw [hs] at h
      dsimp only at h
      by_cases hst : tr.state ≠ "passed"
      · rw [if_pos hst] at h
        cases hr : tr.result with
        | none => rw [hr] at h; simp at h
        | some res =>
            rw [hr] at h
            dsimp only at h
            cases hL : fsL (logsDirectoryOf prd tr) with
            | some listing =>
                rw [hL] at h
                dsimp only at h
                injection h with h
                subst h
                exact countCiEmits_emitEvents _ f
                  (nodup_collectArtifacts _ _ _ _ _ (nodup_scoreCheck _ _))
            | none =>
                rw [hL] at h
                dsimp only at h
                injection h with h
                subst h
                show countCiEmits
                    (Event.warnLogsDirMissing (logsDirectoryOf prd tr) ::
                      emitEvents
                        (scoreCheckOutcome (testedFileOf ppath tr) s).2) f =
                  if hasKey (scoreCheckOutcome (testedFileOf ppath tr) s).2 f
                  then 1 else 0
                rw [countCiEmits_warn_cons]
                exact countCiEmits_emitEvents _ f (nodup_scoreCheck _ _)
      · rw [if_neg hst] at h
        injection h with h
        subst h
        exact countCiEmits_emitEvents _ f (nodup_scoreCheck _ _)

/-- C7 counterexample: in CI mode, a problem whose report carries two
test entries that both record a failure message for the same tested file
emits two CI annotations for that file within a single problem -- the
per-file message dict is created afresh inside the per-test loop, so a
file does not receive exactly one emission per problem. -/
theorem perTestEmissionCounterexample :
    (processProblem true "results" twoTestsRun).map
      (fun r => countCiEmits r.2 (testedFileOf "pp" thirdScoreTest)) =
      .ok 2 := by
  have h13 : scaledScoreOf (1/3) ≠ ((ratTrunc (scaledScoreOf (1/3)) : ℤ) : ℚ) := by
    norm_num [scaledScoreOf, roundDec, roundHalfEven, ratTrunc]
  have hv : validateTest true "pp" (pyJoin "results" "pp") (fun _ => none)
      thirdScoreTest =
      .ok ⟨true,
        [(testedFileOf "pp" thirdScoreTest,
          [.scoreNotInteger (scaledScoreOf (1/3))])],
        [.ciEmit (testedFileOf "pp" thirdScoreTest)
          [.scoreNotInteger (scaledScoreOf (1/3))]]⟩ := by
    rw [validateTest, scoreOfTest_some
      (show thirdScoreTest.result = some ⟨some "AC", some (1/3), []⟩ from rfl)
      (show (RunResult.mk (some "AC") (some (1/3)) []).score = some (1/3)
        from rfl)]
    dsimp only
    rw [if_neg (by decide), scoreCheckOutcome_pos _ h13]
    rfl
  rw [processProblem, if_neg (by decide),
    show twoTestsRun.parsed =
      some (Report.mk "passed" (some [thirdScoreTest, thirdScoreTest]))
      from rfl]
  dsimp only
  rw [if_neg (by decide),
    show twoTestsRun.prob.path = "pp" from rfl,
    show twoTestsRun.logsListing = (fun _ => none) from rfl]
  simp only [processTests, hv]
  simp [Except.map, countCiEmits, List.countP_cons]

/-- C7 (amended): the `failureMessages` dict is created inside the
per-test loop, so its lifetime is one test entry, not the whole problem;
in CI mode every associated file receives exactly one CI-annotation
emission per test entry in which it accrued messages -- hence possibly
several per problem -- each carrying only that entry's messages. -/
theorem ciEmissionPerTest (ppath prd : String)
    (fsL : String → Option (List (String × String)))
    (ts : List TestResult) (b : Bool) (evs : List Event) (file : String)
    (h : processTests true ppath prd fsL ts = .ok (b, evs)) :
    countCiEmits evs file = ts.countP fun t =>
      match validateTest true ppath prd fsL t with
      | .ok o => hasKey o.msgs file
      | .error _ => false := by
  induction ts generalizing b evs with
  | nil =>
      rw [processTests] at h
      injection h with h
      rw [Prod.mk.injEq] at h
      obtain ⟨-, he⟩ := h
      subst he
      simp [countCiEmits]
  | cons t rest ih =>
      rw [processTests] at h
      cases hv : validateTest true ppath prd fsL t with
      | error e => rw [hv] at h; simp at h
      | ok o =>
          rw [hv] at h
          dsimp only at h
          cases hr : processTests true ppath prd fsL rest with
          | error e => rw [hr] at h; simp at h
          | ok p2 =>
              obtain ⟨f2, evs2⟩ := p2
              rw [hr] at h
              dsimp only at h
              injection h with h
              rw [Prod.mk.injEq] at h
              obtain ⟨-, he⟩ := h
              subst he
              rw [List.countP_cons, countCiEmits_append,
                validateTest_count ppath prd fsL hv file, ih f2 evs2 hr, hv]
              dsimp only
              by_cases hk : hasKey o.msgs file
              · simp [hk, Nat.add_comm]
              · simp [hk]

/-- Witness for the amended C7: one test entry whose score check fails,
giving exactly one emission for the tested file from that entry. -/
theorem ciEmissionPerTestWitness :
    countCiEmits
        [Event.ciEmit (testedFileOf "pp" thirdScoreTest)
          [FailureMsg.scoreNotInteger (scaledScoreOf (1/3))]]
        (testedFileOf "pp" thirdScoreTest) =
      List.countP (fun t =>
        match validateTest true "pp" (pyJoin "results" "pp")
            (fun _ => none) t with
        | .ok o => hasKey o.msgs (testedFileOf "pp" thirdScoreTest)
        | .error _ => false) [thirdScoreTest] :=
  ciEmissionPerTest "pp" (pyJoin "results" "pp") (fun _ => none)
    [thirdScoreTest] true
    [Event.ciEmit (testedFileOf "pp" thirdScoreTest)
      [FailureMsg.scoreNotInteger (scaledScoreOf (1/3))]]
    (testedFileOf "pp" thirdScoreTest)
    (by
      have h13 : scaledScoreOf (1/3) ≠
          ((ratTrunc (scaledScoreOf (1/3)) : ℤ) : ℚ) := by
        norm_num [scaledScoreOf, roundDec, roundHalfEven, ratTrunc]
      have hv : validateTest true "pp" (pyJoin "results" "pp")
          (fun _ => none) thirdScoreTest =
          .ok ⟨true,
            [(testedFileOf "pp" thirdScoreTest,
              [.scoreNotInteger (scaledScoreOf (1/3))])],
            [.ciEmit (testedFileOf "pp" thirdScoreTest)
              [.scoreNotInteger (scaledScoreOf (1/3))]]⟩ := by
        rw [validateTest, scoreOfTest_some
          (show thirdScoreTest.result = some ⟨some "AC", some (1/3), []⟩
            from rfl)
          (show (RunResult.mk (some "AC") (some (1/3)) []).score =
            some (1/3) from rfl)]
        dsimp only
        rw [if_neg (by decide), scoreCheckOutcome_pos _ h13]
        rfl
      simp only [processTests, hv]
      rfl)

/-- Witness for the amended C4 at the concrete malformed run. -/
theorem malformedJsonAbortsRunWitness :
    processProblem false "results" malformedRun =
      .error "json.JSONDecodeError" ∧
    runAll false "results" (malformedRun :: [passingRun]) =
      (false, [], some "json.JSONDecodeError") :=
  malformedJsonAbortsRun false "results" malformedRun [passingRun] rfl rfl

theorem not_isUnder_self (rd : String) : ¬isUnder rd rd := by
  intro h
  have hlen := h.length_le
  have h1 : chars (rd ++ "/") = chars rd ++ chars "/" := rfl
  have h2 : chars "/" = ['/'] := rfl
  rw [h1, h2, List.length_append] at hlen
  simp at hlen

theorem mem_rmtree_dirs (fs : FS) (rd p : String) :
    p ∈ (shutilRmtree fs rd).dirs ↔
      p ∈ fs.dirs ∧ ¬(p = rd ∨ isUnder rd p) := by
  simp [shutilRmtree, List.mem_filter]

theorem mem_rmtree_files (fs : FS) (rd p : String) :
    p ∈ (shutilRmtree fs rd).files ↔
      p ∈ fs.files ∧ ¬(p = rd ∨ isUnder rd p) := by
  simp [shutilRmtree, List.mem_filter]

/-- C10: before any problem runs, the results-directory reset succeeds
(when the target is not a stale regular file, and, when it is not a
directory, nothing is stranded below it), after which the results
directory exists and is empty -- nothing of the pre-existing tree below
it survives -- while every path outside the results directory, files and
directories alike, is untouched. -/
theorem resultsDirectoryReset (fs : FS) (rd : String)
    (hfile : rd ∉ fs.files)
    (hstray : pyIsdir fs rd = false →
      ∀ p, isUnder rd p → p ∉ fs.dirs ∧ p ∉ fs.files) :
    ∃ fs2, resetResultsDirectory fs rd = .ok fs2 ∧
      rd ∈ fs2.dirs ∧
      (∀ p, isUnder rd p → p ∉ fs2.dirs ∧ p ∉ fs2.files) ∧
      (∀ p, p ≠ rd → ¬isUnder rd p →
        ((p ∈ fs2.dirs ↔ p ∈ fs.dirs) ∧
          (p ∈ fs2.files ↔ p ∈ fs.files))) := by
  by_cases hd : pyIsdir fs rd = true
  · have hex : ¬(rd ∈ (shutilRmtree fs rd).dirs ∨
        rd ∈ (shutilRmtree fs rd).files) := by
      rintro (h | h)
      · exact ((mem_rmtree_dirs fs rd rd).mp h).2 (Or.inl rfl)
      · exact ((mem_rmtree_files fs rd rd).mp h).2 (Or.inl rfl)
    rw [resetResultsDirectory, if_pos hd, osMakedirs, if_neg hex]
    refine ⟨_, rfl, List.mem_cons_self _ _, ?_, ?_⟩
    · intro p hp
      constructor
      · intro hmem
        rcases List.mem_cons.mp hmem with rfl | hmem
        · exact not_isUnder_self _ hp
        · exact ((mem_rmtree_dirs fs rd p).mp hmem).2 (Or.inr hp)
      · intro hmem
        exact ((mem_rmtree_files fs rd p).mp hmem).2 (Or.inr hp)
    · intro p hne hnu
      constructor
      · constructor
        · intro hmem
          rcases List.mem_cons.mp hmem with rfl | hmem
          · exact absurd rfl hne
          · exact ((mem_rmtree_dirs fs rd p).mp hmem).1
        · intro hmem
          exact List.mem_cons_of_mem _
            ((mem_rmtree_dirs fs rd p).mpr ⟨hmem, by tauto⟩)
      · constructor
        · intro hmem
          exact ((mem_rmtree_files fs rd p).mp hmem).1
        · intro hmem
          exact (mem_rmtree_files fs rd p).mpr ⟨hmem, by tauto⟩
  · have hd' : pyIsdir fs rd = false := by
      revert hd; cases pyIsdir fs rd <;> simp
    have hrdnd : rd ∉ fs.dirs := by
      intro h
      exact hd (by simp [pyIsdir, h])
    have hstray' := hstray hd'
    have hex : ¬(rd ∈ fs.dirs ∨ rd ∈ fs.files) := by
      rintro (h | h)
      · exact hrdnd h
      · exact hfile h
    rw [resetResultsDirectory, if_neg hd, osMakedirs, if_neg hex]
    refine ⟨_, rfl, List.mem_cons_self _ _, ?_, ?_⟩
    · intro p hp
      obtain ⟨h1, h2⟩ := hstray' p hp
      constructor
      · intro hmem
        rcases List.mem_cons.mp hmem with rfl | hmem
        · exact not_isUnder_self _ hp
        · exact h1 hmem
      · exact fun hmem => h2 hmem
    · intro p hne hnu
      refine ⟨⟨?_, fun hmem => List.mem_cons_of_mem _ hmem⟩, Iff.rfl⟩
      intro hmem
      rcases List.mem_cons.mp hmem with rfl | hmem
      · exact absurd rfl hne
      · exact hmem

/-- Witness for C10: a snapshot holding a stale results tree and two
unrelated paths; the reset deletes the stale tree, recreates the empty
results directory and leaves the unrelated paths alone. -/
theorem resultsDirectoryResetWitness :
    ∃ fs2, resetResultsDirectory staleResultsFS "results" = .ok fs2 ∧
      "results" ∈ fs2.dirs ∧
      (∀ p, isUnder "results" p → p ∉ fs2.dirs ∧ p ∉ fs2.files) ∧
      (∀ p, p ≠ "results" → ¬isUnder "results" p →
        ((p ∈ fs2.dirs ↔ p ∈ staleResultsFS.dirs) ∧
          (p ∈ fs2.files ↔ p ∈ staleResultsFS.files))) :=
  resultsDirectoryReset staleResultsFS "results" (by decide)
    (fun h => absurd h (by decide))

end OmegaUp
